import Mathlib

/-!
Shallow embedding of `src/task_manager.py` (a CLI task manager).

Tasks are Python dicts `{'id': int, 'description': str, 'priority': int,
'completed': bool}`; we embed them as a Lean structure.  Persisted storage is
the single JSON file `tasks.json`; we embed it as a `Storage` value that is
either absent (no file), corrupt (the file exists but `json.load` raises
`JSONDecodeError` on its contents — empty or malformed text), or stored JSON.
Interactive prompting is factored out: each operation takes the values the
source reads from the user (after `.strip()` / `int(...)` conversion and the
re-prompt loops) as explicit arguments, and reports what the source prints as
an `Outcome`.  `save_tasks` is the only writer of storage.
-/

namespace TaskManager

/-- Task record, the dict shape built in `add_task` and persisted verbatim. -/
structure Task where
  id : Int
  description : String
  priority : Int
  completed : Bool
deriving DecidableEq

/-- JSON values, the data `json.dump` writes and `json.load` returns. -/
inductive Json where
  | num (n : Int)
  | str (s : String)
  | boolean (b : Bool)
  | arr (elems : List Json)
  | obj (fields : List (String × Json))

/-- State of the persisted file `tasks.json`: missing, present but not
decodable as JSON (empty or corrupt text, on which `json.load` raises
`JSONDecodeError`), or present with decodable contents. -/
inductive Storage where
  | absent
  | corrupt (raw : String)
  | stored (v : Json)

/-- Serialization of one task: the dict literal of `add_task`, dumped with its
field insertion order `id`, `description`, `priority`, `completed`. -/
def encodeTask (t : Task) : Json :=
  .obj [("id", .num t.id), ("description", .str t.description),
        ("priority", .num t.priority), ("completed", .boolean t.completed)]

/-- Embeds `load_tasks` (src/task_manager.py:8-20): a missing file or a
`JSONDecodeError`/`FileNotFoundError` yields the empty list `[]`; otherwise the
decoded JSON value is returned as is. -/
def load_tasks : Storage → Json
  | .absent => .arr []
  | .corrupt _ => .arr []
  | .stored v => v

/-- Embeds `save_tasks` (src/task_manager.py:22-28): the file is rewritten
wholesale with the JSON dump of the task list. -/
def save_tasks (tasks : List Task) : Storage :=
  .stored (.arr (tasks.map encodeTask))

/-- Dictionary field access `fields['key']`, as `json.load` hands dicts back
to the program. -/
def getField : List (String × Json) → String → Option Json
  | [], _ => none
  | (k, v) :: rest, key => if k = key then some v else getField rest key

/-- Reading one persisted record back into the task shape via the field
accesses the program performs (`task['id']`, `task['description']`,
`task['priority']`, `task['completed']`). -/
def decodeTask (v : Json) : Option Task :=
  match v with
  | .obj fields =>
    match getField fields "id", getField fields "description",
          getField fields "priority", getField fields "completed" with
    | some (.num i), some (.str d), some (.num p), some (.boolean c) =>
      some ⟨i, d, p, c⟩
    | _, _, _, _ => none
  | _ => none

/-- Reading a list of persisted records back, failing on the first record that
does not carry the task shape. -/
def decodeTaskList : List Json → Option (List Task)
  | [] => some []
  | v :: vs =>
    match decodeTask v, decodeTaskList vs with
    | some t, some ts => some (t :: ts)
    | _, _ => none

/-- Reading a persisted task list back. -/
def decodeTasks (v : Json) : Option (List Task) :=
  match v with
  | .arr elems => decodeTaskList elems
  | _ => none

/-- Embeds `generate_new_id` (src/task_manager.py:30-37): `1` on an empty
collection, else `max(task['id'] for task in tasks) + 1`; Python's `max` over a
non-empty iterable is a fold of binary `max` over the first element. -/
def generate_new_id (tasks : List Task) : Int :=
  match tasks with
  | [] => 1
  | t :: ts => (ts.foldl (fun m u => max m u.id) t.id) + 1

/-- Sort key of `display_tasks` (src/task_manager.py:50): the Python tuple
`(x['completed'], x['priority'], x['id'])`, with `False < True`. -/
def taskKey (t : Task) : Int × Int × Int :=
  ((if t.completed then 1 else 0), t.priority, t.id)

/-- Lexicographic `≤` on Python triples. -/
def tupleLE (a b : Int × Int × Int) : Bool :=
  decide (a.1 < b.1) ||
    (a.1 == b.1 && (decide (a.2.1 < b.2.1) ||
      (a.2.1 == b.2.1 && decide (a.2.2 ≤ b.2.2))))

/-- Comparison used by `sorted(tasks, key=...)` in `display_tasks`. -/
def taskLE (a b : Task) : Bool :=
  tupleLE (taskKey a) (taskKey b)

/-- Embeds the pure core of `display_tasks` (src/task_manager.py:39-50): the
list `sorted_tasks = sorted(tasks, key=lambda x: (x['completed'], x['priority'],
x['id']))`.  Python's `sorted` is a stable sort returning a new list; a stable
sort is extensionally determined by its comparison, so merge sort embeds it. -/
def sorted_tasks (tasks : List Task) : List Task :=
  tasks.mergeSort taskLE

/-- What an operation reports to the user: success message, a not-found error
message, a validation error message, or the silent early return taken when the
collection is empty (before any id is even prompted for). -/
inductive Outcome where
  | ok
  | notFound
  | validationError
  | emptyNoop
deriving DecidableEq

/-- In-memory collection plus the persisted file, the two pieces of state the
mutating operations touch. -/
structure State where
  tasks : List Task
  storage : Storage

/-- Embeds `add_task` (src/task_manager.py:90-121).  `description` is the
input after `.strip()`; `priority` is the value the re-prompt loop accepted
(the loop only ever accepts 1, 2 or 3).  An empty description aborts before
anything is touched; otherwise the new dict is appended and the list saved.
The created task, which the source reports in its success message, is
returned alongside. -/
def add_task (s : State) (description : String) (priority : Int) :
    State × Outcome × Option Task :=
  if description = "" then
    (s, .validationError, none)
  else
    let new_id := generate_new_id s.tasks
    let new_task : Task := ⟨new_id, description, priority, false⟩
    let tasks := s.tasks ++ [new_task]
    (⟨tasks, save_tasks tasks⟩, .ok, some new_task)

/-- The `for task in tasks: if task['id'] == task_id: task['completed'] = True;
break` loop of `complete_task`: `none` when no task matched (`found` stays
false), else the list with the first match marked completed. -/
def markFirstComplete : List Task → Int → Option (List Task)
  | [], _ => none
  | t :: ts, task_id =>
    if t.id = task_id then some ({ t with completed := true } :: ts)
    else
      match markFirstComplete ts task_id with
      | some ts2 => some (t :: ts2)
      | none => none

/-- Embeds `complete_task` (src/task_manager.py:151-177): early return on an
empty collection (before prompting for an id); otherwise mark the first match
completed and save, or report not-found and touch nothing. -/
def complete_task (s : State) (task_id : Int) : State × Outcome :=
  if s.tasks.isEmpty then (s, .emptyNoop)
  else
    match markFirstComplete s.tasks task_id with
    | some tasks => (⟨tasks, save_tasks tasks⟩, .ok)
    | none => (s, .notFound)

/-- Embeds `delete_task` (src/task_manager.py:124-148): early return on an
empty collection; otherwise keep the tasks whose id does not match, and save
exactly when the list shrank. -/
def delete_task (s : State) (task_id : Int) : State × Outcome :=
  if s.tasks.isEmpty then (s, .emptyNoop)
  else
    let tasks := s.tasks.filter (fun t => t.id != task_id)
    if tasks.length < s.tasks.length then
      (⟨tasks, save_tasks tasks⟩, .ok)
    else (s, .notFound)

/-- The `next((task for task in tasks if task['id'] == task_id), None)` lookup
of `prioritize_task` followed by the in-place `target_task['priority'] =
new_priority`: the first matching task gets the new priority. -/
def setFirstPriority : List Task → Int → Int → Option (List Task)
  | [], _, _ => none
  | t :: ts, task_id, p =>
    if t.id = task_id then some ({ t with priority := p } :: ts)
    else
      match setFirstPriority ts task_id p with
      | some ts2 => some (t :: ts2)
      | none => none

/-- Embeds `prioritize_task` (src/task_manager.py:180-215): early return on an
empty collection; not-found aborts before a new priority is even prompted for;
otherwise `new_priority` (validated to 1, 2 or 3 by the input loop) replaces
the first match's priority and the list is saved. -/
def prioritize_task (s : State) (task_id new_priority : Int) : State × Outcome :=
  if s.tasks.isEmpty then (s, .emptyNoop)
  else
    match setFirstPriority s.tasks task_id new_priority with
    | some tasks => (⟨tasks, save_tasks tasks⟩, .ok)
    | none => (s, .notFound)

/-- One user-driven mutating operation of the main loop, with the inputs the
source reads from the user attached. -/
inductive Op where
  | add (description : String) (priority : Int)
  | complete (task_id : Int)
  | prioritize (task_id new_priority : Int)
  | delete (task_id : Int)

/-- State transition of one operation of the main loop. -/
def applyOp (s : State) : Op → State
  | .add d p => (add_task s d p).1
  | .complete i => (complete_task s i).1
  | .prioritize i p => (prioritize_task s i p).1
  | .delete i => (delete_task s i).1

/-- Running a whole sequence of operations. -/
def runOps (s : State) : List Op → State
  | [] => s
  | op :: ops => runOps (applyOp s op) ops

/-- The ids handed out to newly created tasks along a run, in order: each
successful add records the `generate_new_id` value it assigned. -/
def assignedIds (s : State) : List Op → List Int
  | [] => []
  | op :: ops =>
    match op with
    | .add d _ =>
      if d = "" then assignedIds (applyOp s op) ops
      else generate_new_id s.tasks :: assignedIds (applyOp s op) ops
    | _ => assignedIds (applyOp s op) ops

/-- Pairwise distinctness of the ids in a collection, the invariant the spec
demands of every observable post-state. -/
def NodupIds (tasks : List Task) : Prop :=
  (tasks.map Task.id).Nodup

/-- Starting point with no tasks and no `tasks.json` file, the state of a
fresh checkout. -/
def emptyStart : State := ⟨[], Storage.absent⟩

/-- Run that deletes the task holding the maximal id and then adds again:
add (gets id 1), delete id 1, add. -/
def reuseRun : List Op := [Op.add "first task" 1, Op.delete 1, Op.add "second task" 1]

/-- Incomplete high-priority task of the sort example. -/
def exTaskA : Task := ⟨1, "a", 1, false⟩

/-- Completed high-priority task of the sort example. -/
def exTaskB : Task := ⟨2, "b", 1, true⟩

/-- Incomplete low-priority task of the sort example. -/
def exTaskC : Task := ⟨3, "c", 3, false⟩

/-- Incomplete medium-priority task of the sort example. -/
def exTaskD : Task := ⟨4, "d", 2, false⟩

/-- Some task with this id is in the collection. -/
def PresentAt (s : State) (x : Int) : Prop :=
  ∃ t ∈ s.tasks, t.id = x

/-- Some task with this id is in the collection and every task carrying the id
is marked completed. -/
def CompletedAt (s : State) (x : Int) : Prop :=
  (∃ t ∈ s.tasks, t.id = x) ∧ ∀ t ∈ s.tasks, t.id = x → t.completed = true

/-! ### Helper lemmas about `generate_new_id` -/

lemma le_foldl_max (ts : List Task) (init : Int) :
    init ≤ ts.foldl (fun m u => max m u.id) init := by
  induction ts generalizing init with
  | nil => exact le_refl _
  | cons t ts ih =>
    calc init ≤ max init t.id := le_max_left _ _
    _ ≤ ts.foldl (fun m u => max m u.id) (max init t.id) := ih _

lemma mem_le_foldl_max (ts : List Task) (init : Int) :
    ∀ u ∈ ts, u.id ≤ ts.foldl (fun m u => max m u.id) init := by
  induction ts generalizing init with
  | nil => intro u hu; cases hu
  | cons t ts ih =>
    intro u hu
    rcases List.mem_cons.mp hu with h | h
    · subst h
      calc u.id ≤ max init u.id := le_max_right _ _
      _ ≤ ts.foldl (fun m u => max m u.id) (max init u.id) := le_foldl_max _ _
    · exact ih _ u h

lemma foldl_max_eq_init_or_mem (ts : List Task) (init : Int) :
    ts.foldl (fun m u => max m u.id) init = init ∨
      ∃ u ∈ ts, ts.foldl (fun m u => max m u.id) init = u.id := by
  induction ts generalizing init with
  | nil => exact Or.inl rfl
  | cons t ts ih =>
    rcases ih (max init t.id) with h | ⟨u, hu, h⟩
    · rcases max_choice init t.id with hm | hm
      · exact Or.inl (by rw [List.foldl_cons, h, hm])
      · exact Or.inr ⟨t, List.mem_cons_self _ _, by rw [List.foldl_cons, h, hm]⟩
    · exact Or.inr ⟨u, List.mem_cons_of_mem _ hu, h⟩

/-- Every id in the collection is strictly below the freshly generated one. -/
lemma id_lt_generate_new_id (tasks : List Task) :
    ∀ u ∈ tasks, u.id < generate_new_id tasks := by
  intro u hu
  cases tasks with
  | nil => cases hu
  | cons t ts =>
    have hle : u.id ≤ ts.foldl (fun m u => max m u.id) t.id := by
      rcases List.mem_cons.mp hu with h | h
      · subst h; exact le_foldl_max ts u.id
      · exact mem_le_foldl_max ts t.id u h
    show u.id < ts.foldl (fun m u => max m u.id) t.id + 1
    omega

/-! ### Helper lemmas about the first-match loops -/

lemma markFirstComplete_eq_none (ts : List Task) (i : Int)
    (h : ∀ t ∈ ts, t.id ≠ i) : markFirstComplete ts i = none := by
  induction ts with
  | nil => rfl
  | cons t ts ih =>
    have ht : t.id ≠ i := h t (List.mem_cons_self _ _)
    simp only [markFirstComplete, if_neg ht,
      ih fun u hu => h u (List.mem_cons_of_mem _ hu)]

lemma markFirstComplete_decomp (ts : List Task) (i : Int)
    (h : ∃ t ∈ ts, t.id = i) :
    ∃ l1 t l2, ts = l1 ++ t :: l2 ∧ t.id = i ∧ (∀ u ∈ l1, u.id ≠ i) ∧
      markFirstComplete ts i = some (l1 ++ { t with completed := true } :: l2) := by
  induction ts with
  | nil => obtain ⟨t, ht, _⟩ := h; cases ht
  | cons u us ih =>
    by_cases hu : u.id = i
    · exact ⟨[], u, us, rfl, hu, by simp, by simp [markFirstComplete, if_pos hu]⟩
    · have h' : ∃ t ∈ us, t.id = i := by
        obtain ⟨t, ht, hti⟩ := h
        rcases List.mem_cons.mp ht with rfl | hmem
        · exact absurd hti hu
        · exact ⟨t, hmem, hti⟩
      obtain ⟨l1, t, l2, heq, hti, hl1, hmk⟩ := ih h'
      refine ⟨u :: l1, t, l2, by simp [heq], hti, ?_, ?_⟩
      · intro v hv
        rcases List.mem_cons.mp hv with rfl | hmem
        · exact hu
        · exact hl1 v hmem
      · simp [markFirstComplete, if_neg hu, hmk]

lemma markFirstComplete_ids (ts : List Task) (i : Int) (ts' : List Task)
    (h : markFirstComplete ts i = some ts') :
    ts'.map Task.id = ts.map Task.id := by
  induction ts generalizing ts' with
  | nil => cases h
  | cons t ts ih =>
    by_cases ht : t.id = i
    · simp only [markFirstComplete, if_pos ht] at h
      cases h
      simp
    · simp only [markFirstComplete, if_neg ht] at h
      cases hmk : markFirstComplete ts i with
      | none => rw [hmk] at h; cases h
      | some ts2 =>
        rw [hmk] at h
        cases h
        simp [ih ts2 hmk]

lemma setFirstPriority_eq_none (ts : List Task) (i p : Int)
    (h : ∀ t ∈ ts, t.id ≠ i) : setFirstPriority ts i p = none := by
  induction ts with
  | nil => rfl
  | cons t ts ih =>
    have ht : t.id ≠ i := h t (List.mem_cons_self _ _)
    simp only [setFirstPriority, if_neg ht,
      ih fun u hu => h u (List.mem_cons_of_mem _ hu)]

lemma setFirstPriority_decomp (ts : List Task) (i p : Int)
    (h : ∃ t ∈ ts, t.id = i) :
    ∃ l1 t l2, ts = l1 ++ t :: l2 ∧ t.id = i ∧ (∀ u ∈ l1, u.id ≠ i) ∧
      setFirstPriority ts i p = some (l1 ++ { t with priority := p } :: l2) := by
  induction ts with
  | nil => obtain ⟨t, ht, _⟩ := h; cases ht
  | cons u us ih =>
    by_cases hu : u.id = i
    · exact ⟨[], u, us, rfl, hu, by simp, by simp [setFirstPriority, if_pos hu]⟩
    · have h' : ∃ t ∈ us, t.id = i := by
        obtain ⟨t, ht, hti⟩ := h
        rcases List.mem_cons.mp ht with rfl | hmem
        · exact absurd hti hu
        · exact ⟨t, hmem, hti⟩
      obtain ⟨l1, t, l2, heq, hti, hl1, hmk⟩ := ih h'
      refine ⟨u :: l1, t, l2, by simp [heq], hti, ?_, ?_⟩
      · intro v hv
        rcases List.mem_cons.mp hv with rfl | hmem
        · exact hu
        · exact hl1 v hmem
      · simp [setFirstPriority, if_neg hu, hmk]

lemma setFirstPriority_ids (ts : List Task) (i p : Int) (ts' : List Task)
    (h : setFirstPriority ts i p = some ts') :
    ts'.map Task.id = ts.map Task.id := by
  induction ts generalizing ts' with
  | nil => cases h
  | cons t ts ih =>
    by_cases ht : t.id = i
    · simp only [setFirstPriority, if_pos ht] at h
      cases h
      simp
    · simp only [setFirstPriority, if_neg ht] at h
      cases hmk : setFirstPriority ts i p with
      | none => rw [hmk] at h; cases h
      | some ts2 =>
        rw [hmk] at h
        cases h
        simp [ih ts2 hmk]

/-! ### Helper lemmas about the display ordering -/

lemma tupleLE_total (a b : Int × Int × Int) : tupleLE a b || tupleLE b a := by
  simp only [tupleLE, Bool.or_eq_true, Bool.and_eq_true, decide_eq_true_eq,
    beq_iff_eq]
  omega

lemma tupleLE_trans {a b c : Int × Int × Int}
    (h1 : tupleLE a b) (h2 : tupleLE b c) : tupleLE a c := by
  simp only [tupleLE, Bool.or_eq_true, Bool.and_eq_true, decide_eq_true_eq,
    beq_iff_eq] at h1 h2 ⊢
  omega

lemma taskLE_total (a b : Task) : taskLE a b || taskLE b a :=
  tupleLE_total (taskKey a) (taskKey b)

lemma taskLE_trans {a b c : Task} (h1 : taskLE a b) (h2 : taskLE b c) :
    taskLE a c :=
  tupleLE_trans h1 h2

/-! ### Helper lemmas about serialization -/

lemma decodeTask_encodeTask (t : Task) : decodeTask (encodeTask t) = some t := rfl

lemma decodeTaskList_map_encodeTask (ts : List Task) :
    decodeTaskList (ts.map encodeTask) = some ts := by
  induction ts with
  | nil => rfl
  | cons t ts ih => simp [decodeTaskList, decodeTask_encodeTask, ih]

/-! ### Claim theorems: the Store -/

/-- C2: `load_tasks` returns the empty list whenever the persisted file is
absent or its contents cannot be decoded (`JSONDecodeError`, covering empty,
truncated or otherwise malformed text), and the two cases are
indistinguishable from "no tasks".  `load_tasks` is a total function of the
storage state, so no such state produces a fatal error. -/
theorem load_tasks_tolerates_bad_storage :
    load_tasks Storage.absent = Json.arr [] ∧
      (∀ raw : String, load_tasks (Storage.corrupt raw) = Json.arr []) ∧
      (∀ raw : String, load_tasks (Storage.corrupt raw) = load_tasks Storage.absent) :=
  ⟨rfl, fun _ => rfl, fun _ => rfl⟩

/-- C6: `generate_new_id` returns 1 on the empty collection, and otherwise
one more than the maximum id: the returned value is `t.id + 1` for some member
`t` whose id dominates every id in the collection. -/
theorem generate_new_id_spec :
    generate_new_id [] = 1 ∧
      ∀ tasks : List Task, tasks ≠ [] →
        ∃ t ∈ tasks, generate_new_id tasks = t.id + 1 ∧ ∀ u ∈ tasks, u.id ≤ t.id := by
  refine ⟨rfl, ?_⟩
  intro tasks hne
  cases tasks with
  | nil => exact absurd rfl hne
  | cons t ts =>
    have hbound : ∀ v ∈ t :: ts, v.id ≤ ts.foldl (fun m u => max m u.id) t.id := by
      intro v hv
      rcases List.mem_cons.mp hv with h | h
      · subst h; exact le_foldl_max ts v.id
      · exact mem_le_foldl_max ts t.id v h
    rcases foldl_max_eq_init_or_mem ts t.id with h | ⟨u, hu, h⟩
    · refine ⟨t, List.mem_cons_self _ _, ?_, ?_⟩
      · show ts.foldl (fun m u => max m u.id) t.id + 1 = t.id + 1
        omega
      · intro v hv; have := hbound v hv; omega
    · refine ⟨u, List.mem_cons_of_mem _ hu, ?_, ?_⟩
      · show ts.foldl (fun m u => max m u.id) t.id + 1 = u.id + 1
        omega
      · intro v hv; have := hbound v hv; omega

/-- Closed instance of `generate_new_id_spec` on the one-task collection. -/
theorem generate_new_id_spec_witness :
    ∃ t ∈ [Task.mk 5 "x" 1 false], generate_new_id [Task.mk 5 "x" 1 false] = t.id + 1 ∧
      ∀ u ∈ [Task.mk 5 "x" 1 false], u.id ≤ t.id :=
  generate_new_id_spec.2 [Task.mk 5 "x" 1 false] (by simp)

/-- C7: saving any collection and loading it back decodes to exactly the same
collection: every id, description, priority and completed flag round-trips
(the statement needs no well-formedness restriction, so in particular every
well-formed collection round-trips). -/
theorem save_then_load_roundtrip (tasks : List Task) :
    decodeTasks (load_tasks (save_tasks tasks)) = some tasks := by
  show decodeTaskList (tasks.map encodeTask) = some tasks
  exact decodeTaskList_map_encodeTask tasks

/-! ### Claim theorems: the operations -/

/-- C5: `sorted_tasks` is a pure function producing a permutation of its input
ordered by the composite key (completed ascending with incomplete first, then
priority ascending with High=1 first, then id ascending); it is stable (any
already-ordered sublist keeps its relative positions), the input list itself
is untouched (the embedding is a function of it), and on the claim's example
with (completed, priority) pairs (false,1), (true,1), (false,3), (false,2) it
yields the order (false,1), (false,2), (false,3), (true,1). -/
theorem sorted_tasks_spec :
    (∀ ts : List Task, (sorted_tasks ts).Perm ts) ∧
    (∀ ts : List Task, (sorted_tasks ts).Pairwise fun a b => taskLE a b) ∧
    (∀ ts c : List Task, (c.Pairwise fun a b => taskLE a b) → c.Sublist ts →
      c.Sublist (sorted_tasks ts)) ∧
    sorted_tasks [exTaskA, exTaskB, exTaskC, exTaskD] =
      [exTaskA, exTaskD, exTaskC, exTaskB] := by
  refine ⟨?_, ?_, ?_, ?_⟩
  · intro ts
    show (ts.mergeSort taskLE).Perm ts
    exact List.mergeSort_perm ts taskLE
  · intro ts
    show (ts.mergeSort taskLE).Pairwise fun a b => taskLE a b
    exact @List.sorted_mergeSort Task taskLE
      (fun a b c h1 h2 => taskLE_trans h1 h2) (fun a b => taskLE_total a b) ts
  · intro ts c hc hsub
    show c.Sublist (ts.mergeSort taskLE)
    exact @List.sublist_mergeSort Task taskLE ts
      (fun a b c h1 h2 => taskLE_trans h1 h2) (fun a b => taskLE_total a b) c hc hsub
  · show [exTaskA, exTaskB, exTaskC, exTaskD].mergeSort taskLE =
      [exTaskA, exTaskD, exTaskC, exTaskB]
    simp [List.mergeSort, List.merge, taskLE, tupleLE, taskKey,
      exTaskA, exTaskB, exTaskC, exTaskD]

/-- Closed instance of the stability part of `sorted_tasks_spec`: the ordered
pair `[exTaskA, exTaskB]` keeps its relative order inside the sorted output. -/
theorem sorted_tasks_spec_witness :
    List.Sublist [exTaskA, exTaskB] (sorted_tasks [exTaskA, exTaskB, exTaskC]) :=
  sorted_tasks_spec.2.2.1 [exTaskA, exTaskB, exTaskC] [exTaskA, exTaskB]
    (by decide) (by decide)

/-- C4: an empty (stripped) description makes `add_task` abort with the
validation error, leaving the in-memory collection and the persisted file
untouched; any non-empty description together with a priority from {1,2,3}
appends exactly one new task carrying the freshly generated id (strictly above
every existing id) and `completed = false`, saves the new list, and hands the
created task back. -/
theorem add_task_spec (s : State) (d : String) (p : Int) :
    (d = "" → add_task s d p = (s, .validationError, none)) ∧
    (d ≠ "" → (p = 1 ∨ p = 2 ∨ p = 3) →
      ∃ t : Task,
        add_task s d p = (⟨s.tasks ++ [t], save_tasks (s.tasks ++ [t])⟩, .ok, some t) ∧
        t.id = generate_new_id s.tasks ∧ (∀ u ∈ s.tasks, u.id < t.id) ∧
        t.description = d ∧ t.priority = p ∧ t.completed = false) := by
  constructor
  · intro h
    simp [add_task, h]
  · intro h _
    refine ⟨⟨generate_new_id s.tasks, d, p, false⟩, ?_, rfl,
      id_lt_generate_new_id s.tasks, rfl, rfl, rfl⟩
    simp [add_task, h]

/-- Closed instance of `add_task_spec`: on the empty state, adding with an
empty description changes nothing, and adding "Buy milk" with priority 2
appends one fresh task with id 1. -/
theorem add_task_spec_witness :
    add_task ⟨[], Storage.absent⟩ "" 2 =
      (⟨[], Storage.absent⟩, .validationError, none) ∧
    ∃ t : Task,
      add_task ⟨[], Storage.absent⟩ "Buy milk" 2 =
        (⟨(State.mk [] Storage.absent).tasks ++ [t],
          save_tasks ((State.mk [] Storage.absent).tasks ++ [t])⟩, .ok, some t) ∧
      t.id = generate_new_id (State.mk [] Storage.absent).tasks ∧
      (∀ u ∈ (State.mk [] Storage.absent).tasks, u.id < t.id) ∧
      t.description = "Buy milk" ∧ t.priority = 2 ∧ t.completed = false :=
  ⟨(add_task_spec ⟨[], Storage.absent⟩ "" 2).1 rfl,
   (add_task_spec ⟨[], Storage.absent⟩ "Buy milk" 2).2 (by simp) (Or.inr (Or.inl rfl))⟩

/-- C3 fails as stated on an empty collection: there id 1 matches no task, yet
`complete_task` signals no not-found error — the source returns silently (even
before prompting for an id) instead of reporting. -/
theorem complete_task_empty_counterexample :
    (∀ t ∈ (State.mk [] Storage.absent).tasks, t.id ≠ 1) ∧
      (complete_task (State.mk [] Storage.absent) 1).2 ≠ Outcome.notFound := by
  constructor
  · intro t ht
    cases ht
  · decide

/-- C3 (amended): on an empty collection `complete_task` returns silently with
nothing changed and nothing saved; on a non-empty collection an id carried by
no task leaves the state exactly unchanged (no save) and signals not-found,
while a present id marks the first matching task completed and saves the new
list. -/
theorem complete_task_spec (s : State) (i : Int) :
    (s.tasks = [] → complete_task s i = (s, .emptyNoop)) ∧
    (s.tasks ≠ [] → (∀ t ∈ s.tasks, t.id ≠ i) → complete_task s i = (s, .notFound)) ∧
    ((∃ t ∈ s.tasks, t.id = i) →
      ∃ l1 t l2, s.tasks = l1 ++ t :: l2 ∧ t.id = i ∧ (∀ u ∈ l1, u.id ≠ i) ∧
        complete_task s i =
          (⟨l1 ++ { t with completed := true } :: l2,
            save_tasks (l1 ++ { t with completed := true } :: l2)⟩, .ok)) := by
  refine ⟨?_, ?_, ?_⟩
  · intro h
    simp [complete_task, h]
  · intro hne hnomatch
    simp [complete_task, hne, markFirstComplete_eq_none s.tasks i hnomatch]
  · intro hex
    obtain ⟨l1, t, l2, heq, hti, hl1, hmk⟩ := markFirstComplete_decomp s.tasks i hex
    have hne : s.tasks ≠ [] := by rw [heq]; simp
    exact ⟨l1, t, l2, heq, hti, hl1, by simp [complete_task, hne, hmk]⟩

/-- Closed instance of `complete_task_spec`: completing id 2 on a one-task
collection holding only id 1 changes nothing and reports not-found, and
completing id 1 marks that task completed and saves. -/
theorem complete_task_spec_witness :
    complete_task (State.mk [Task.mk 1 "a" 2 false] Storage.absent) 2 =
      (State.mk [Task.mk 1 "a" 2 false] Storage.absent, .notFound) ∧
    ∃ l1 t l2, (State.mk [Task.mk 1 "a" 2 false] Storage.absent).tasks = l1 ++ t :: l2 ∧
      t.id = 1 ∧ (∀ u ∈ l1, u.id ≠ 1) ∧
      complete_task (State.mk [Task.mk 1 "a" 2 false] Storage.absent) 1 =
        (⟨l1 ++ { t with completed := true } :: l2,
          save_tasks (l1 ++ { t with completed := true } :: l2)⟩, .ok) :=
  ⟨(complete_task_spec (State.mk [Task.mk 1 "a" 2 false] Storage.absent) 2).2.1
      (by simp) (by decide),
   (complete_task_spec (State.mk [Task.mk 1 "a" 2 false] Storage.absent) 1).2.2
      ⟨Task.mk 1 "a" 2 false, by simp, rfl⟩⟩

/-- C10: on an empty collection the complete, delete and reprioritize
operations return immediately — no not-found error, no save, no state change
(in the source the early return even precedes the id prompt) — and a
not-found outcome is only ever produced when the collection is non-empty. -/
theorem empty_collection_ops_noop :
    (∀ (st : Storage) (i : Int), complete_task ⟨[], st⟩ i = (⟨[], st⟩, .emptyNoop)) ∧
    (∀ (st : Storage) (i : Int), delete_task ⟨[], st⟩ i = (⟨[], st⟩, .emptyNoop)) ∧
    (∀ (st : Storage) (i p : Int), prioritize_task ⟨[], st⟩ i p = (⟨[], st⟩, .emptyNoop)) ∧
    (∀ (s : State) (i : Int), (complete_task s i).2 = .notFound → s.tasks ≠ []) ∧
    (∀ (s : State) (i : Int), (delete_task s i).2 = .notFound → s.tasks ≠ []) ∧
    (∀ (s : State) (i p : Int), (prioritize_task s i p).2 = .notFound → s.tasks ≠ []) := by
  refine ⟨fun st i => rfl, fun st i => rfl, fun st i p => rfl, ?_, ?_, ?_⟩
  · intro s i h hnil
    simp [complete_task, hnil] at h
  · intro s i h hnil
    simp [delete_task, hnil] at h
  · intro s i p h hnil
    simp [prioritize_task, hnil] at h

/-- Closed instance of `empty_collection_ops_noop`: a not-found outcome on a
concrete one-task collection certifies that collection non-empty. -/
theorem empty_collection_ops_noop_witness :
    (State.mk [Task.mk 1 "a" 2 false] Storage.absent).tasks ≠ [] :=
  empty_collection_ops_noop.2.2.2.1 (State.mk [Task.mk 1 "a" 2 false] Storage.absent) 2
    (by decide)

/-- Appending a task whose id differs from every existing id keeps the ids
pairwise distinct. -/
lemma nodupIds_append_fresh {ts : List Task} {t : Task} (h : NodupIds ts)
    (hfresh : ∀ u ∈ ts, u.id ≠ t.id) : NodupIds (ts ++ [t]) := by
  unfold NodupIds at h ⊢
  rw [List.map_append, List.nodup_append]
  refine ⟨h, List.nodup_singleton _, ?_⟩
  intro a ha hb
  obtain ⟨u, hu, rfl⟩ := List.mem_map.mp ha
  rcases List.mem_singleton.mp hb with h'
  exact hfresh u hu h'

/-- C9: every operation — add, complete, reprioritize, delete — preserves
pairwise distinctness of the ids in the in-memory collection, in every
post-state, error outcomes (early return, validation failure, not-found)
included: `applyOp` covers all outcome branches of each operation. -/
theorem ops_preserve_nodup_ids (s : State) (op : Op) (h : NodupIds s.tasks) :
    NodupIds (applyOp s op).tasks := by
  cases op with
  | add d p =>
    by_cases hd : d = ""
    · simpa [applyOp, add_task, hd] using h
    · have hfresh : ∀ u ∈ s.tasks, u.id ≠ generate_new_id s.tasks := fun u hu =>
        ne_of_lt (id_lt_generate_new_id s.tasks u hu)
      simpa [applyOp, add_task, hd] using nodupIds_append_fresh h hfresh
  | complete i =>
    by_cases hnil : s.tasks = []
    · simpa [applyOp, complete_task, hnil] using h
    · cases hmk : markFirstComplete s.tasks i with
      | none => simpa [applyOp, complete_task, hnil, hmk] using h
      | some ts' =>
        have hts' : NodupIds ts' := by
          unfold NodupIds
          rw [markFirstComplete_ids s.tasks i ts' hmk]
          exact h
        simpa [applyOp, complete_task, hnil, hmk] using hts'
  | prioritize i p =>
    by_cases hnil : s.tasks = []
    · simpa [applyOp, prioritize_task, hnil] using h
    · cases hmk : setFirstPriority s.tasks i p with
      | none => simpa [applyOp, prioritize_task, hnil, hmk] using h
      | some ts' =>
        have hts' : NodupIds ts' := by
          unfold NodupIds
          rw [setFirstPriority_ids s.tasks i p ts' hmk]
          exact h
        simpa [applyOp, prioritize_task, hnil, hmk] using hts'
  | delete i =>
    by_cases hnil : s.tasks = []
    · simpa [applyOp, delete_task, hnil] using h
    · have hf : NodupIds (s.tasks.filter fun t => t.id != i) :=
        ((List.filter_sublist s.tasks).map Task.id).nodup h
      by_cases hlen :
          (s.tasks.filter fun t => t.id != i).length < s.tasks.length
      · simpa [applyOp, delete_task, hnil, hlen] using hf
      · simpa [applyOp, delete_task, hnil, hlen] using h

/-- Closed instance of `ops_preserve_nodup_ids`: deleting id 1 from a concrete
two-task collection keeps the ids pairwise distinct. -/
theorem ops_preserve_nodup_ids_witness :
    NodupIds (applyOp (State.mk [Task.mk 1 "a" 2 false, Task.mk 2 "b" 1 true]
      Storage.absent) (Op.delete 1)).tasks :=
  ops_preserve_nodup_ids
    (State.mk [Task.mk 1 "a" 2 false, Task.mk 2 "b" 1 true] Storage.absent)
    (Op.delete 1) (by unfold NodupIds; decide)

/-- Completedness of an id survives one operation, provided a task with the id
is still there afterwards.  No operation writes `completed := false`: complete
only sets the flag, reprioritize only touches the priority, delete only
removes, and add only appends a task whose id is strictly above every live
id. -/
lemma completedAt_step (s : State) (op : Op) (x : Int)
    (hc : CompletedAt s x) (hp : PresentAt (applyOp s op) x) :
    CompletedAt (applyOp s op) x := by
  simp only [CompletedAt, PresentAt] at hc hp ⊢
  obtain ⟨hex, hall⟩ := hc
  cases op with
  | add d p =>
    by_cases hd : d = ""
    · simpa [applyOp, add_task, hd] using And.intro hex hall
    · have htasks : (applyOp s (.add d p)).tasks =
          s.tasks ++ [⟨generate_new_id s.tasks, d, p, false⟩] := by
        simp [applyOp, add_task, hd]
      rw [htasks]
      constructor
      · obtain ⟨w, hw, hwid⟩ := hex
        exact ⟨w, List.mem_append_left _ hw, hwid⟩
      · intro t ht hid
        rcases List.mem_append.mp ht with hmem | hmem
        · exact hall t hmem hid
        · rcases List.mem_singleton.mp hmem with rfl
          exfalso
          obtain ⟨w, hw, hwid⟩ := hex
          have hlt := id_lt_generate_new_id s.tasks w hw
          simp only at hid
          omega
  | complete i =>
    by_cases hnil : s.tasks = []
    · simpa [applyOp, complete_task, hnil] using And.intro hex hall
    · cases hmk : markFirstComplete s.tasks i with
      | none => simpa [applyOp, complete_task, hnil, hmk] using And.intro hex hall
      | some ts' =>
        have hexi : ∃ t ∈ s.tasks, t.id = i := by
          by_contra hno
          push_neg at hno
          rw [markFirstComplete_eq_none s.tasks i hno] at hmk
          cases hmk
        obtain ⟨l1, t, l2, heq, hti, hl1, hmk2⟩ :=
          markFirstComplete_decomp s.tasks i hexi
        rw [hmk] at hmk2
        injection hmk2 with hts'
        subst hts'
        have htasks : (applyOp s (.complete i)).tasks =
            l1 ++ { t with completed := true } :: l2 := by
          simp [applyOp, complete_task, hnil, hmk]
        rw [htasks]
        have hall' : ∀ u, u ∈ l1 ++ t :: l2 → u.id = x → u.completed = true := by
          rw [← heq]; exact hall
        constructor
        · obtain ⟨w, hw, hwid⟩ := hex
          rw [heq] at hw
          rcases List.mem_append.mp hw with hmem | hmem
          · exact ⟨w, List.mem_append_left _ hmem, hwid⟩
          · rcases List.mem_cons.mp hmem with rfl | hmem2
            · exact ⟨{ w with completed := true },
                List.mem_append_right _ (List.mem_cons_self _ _), hwid⟩
            · exact ⟨w, List.mem_append_right _ (List.mem_cons_of_mem _ hmem2), hwid⟩
        · intro u hu hid
          rcases List.mem_append.mp hu with hmem | hmem
          · exact hall' u (List.mem_append_left _ hmem) hid
          · rcases List.mem_cons.mp hmem with rfl | hmem2
            · rfl
            · exact hall' u (List.mem_append_right _ (List.mem_cons_of_mem _ hmem2)) hid
  | prioritize i p =>
    by_cases hnil : s.tasks = []
    · simpa [applyOp, prioritize_task, hnil] using And.intro hex hall
    · cases hmk : setFirstPriority s.tasks i p with
      | none => simpa [applyOp, prioritize_task, hnil, hmk] using And.intro hex hall
      | some ts' =>
        have hexi : ∃ t ∈ s.tasks, t.id = i := by
          by_contra hno
          push_neg at hno
          rw [setFirstPriority_eq_none s.tasks i p hno] at hmk
          cases hmk
        obtain ⟨l1, t, l2, heq, hti, hl1, hmk2⟩ :=
          setFirstPriority_decomp s.tasks i p hexi
        rw [hmk] at hmk2
        injection hmk2 with hts'
        subst hts'
        have htasks : (applyOp s (.prioritize i p)).tasks =
            l1 ++ { t with priority := p } :: l2 := by
          simp [applyOp, prioritize_task, hnil, hmk]
        rw [htasks]
        have hall' : ∀ u, u ∈ l1 ++ t :: l2 → u.id = x → u.completed = true := by
          rw [← heq]; exact hall
        constructor
        · obtain ⟨w, hw, hwid⟩ := hex
          rw [heq] at hw
          rcases List.mem_append.mp hw with hmem | hmem
          · exact ⟨w, List.mem_append_left _ hmem, hwid⟩
          · rcases List.mem_cons.mp hmem with rfl | hmem2
            · exact ⟨{ w with priority := p },
                List.mem_append_right _ (List.mem_cons_self _ _), hwid⟩
            · exact ⟨w, List.mem_append_right _ (List.mem_cons_of_mem _ hmem2), hwid⟩
        · intro u hu hid
          rcases List.mem_append.mp hu with hmem | hmem
          · exact hall' u (List.mem_append_left _ hmem) hid
          · rcases List.mem_cons.mp hmem with rfl | hmem2
            · exact hall' t (List.mem_append_right _ (List.mem_cons_self _ _)) hid
            · exact hall' u (List.mem_append_right _ (List.mem_cons_of_mem _ hmem2)) hid
  | delete i =>
    by_cases hnil : s.tasks = []
    · simpa [applyOp, delete_task, hnil] using And.intro hex hall
    · by_cases hlen :
          (s.tasks.filter fun t => t.id != i).length < s.tasks.length
      · have htasks : (applyOp s (.delete i)).tasks =
            s.tasks.filter fun t => t.id != i := by
          simp [applyOp, delete_task, hnil, hlen]
        rw [htasks] at hp ⊢
        refine ⟨hp, ?_⟩
        intro u hu hid
        exact hall u (List.mem_of_mem_filter hu) hid
      · simpa [applyOp, delete_task, hnil, hlen] using And.intro hex hall

/-- Completedness of an id survives a whole run during which the id stays
present after every prefix of the run. -/
lemma completedAt_run (ops : List Op) : ∀ (s : State) (x : Int), CompletedAt s x →
    (∀ k, k ≤ ops.length → PresentAt (runOps s (ops.take k)) x) →
    CompletedAt (runOps s ops) x := by
  induction ops with
  | nil =>
    intro s x hc _
    exact hc
  | cons op ops ih =>
    intro s x hc hpres
    have hc1 : CompletedAt (applyOp s op) x := by
      refine completedAt_step s op x hc ?_
      have := hpres 1 (by simp)
      simpa [runOps] using this
    have hpres' : ∀ k, k ≤ ops.length →
        PresentAt (runOps (applyOp s op) (ops.take k)) x := by
      intro k hk
      have := hpres (k + 1) (by simpa using Nat.succ_le_succ hk)
      simpa [List.take_succ_cons, runOps] using this
    exact ih (applyOp s op) x hc1 hpres'

/-- C8: no operation of the system ever resets a completed flag: a task
marked completed stays completed across any single operation it survives, and
along every operation sequence during which its id remains in the collection;
so each task's status moves at most once, from incomplete to complete
(`sorted_tasks` is a pure function of the list and touches no state at all).
A deleted task no longer exists; its lifetime ends at the delete. -/
theorem completed_never_reverts :
    (∀ (s : State) (op : Op) (x : Int), CompletedAt s x →
      PresentAt (applyOp s op) x → CompletedAt (applyOp s op) x) ∧
    (∀ (s : State) (ops : List Op) (x : Int), CompletedAt s x →
      (∀ k, k ≤ ops.length → PresentAt (runOps s (ops.take k)) x) →
      CompletedAt (runOps s ops) x) :=
  ⟨fun s op x hc hp => completedAt_step s op x hc hp,
   fun s ops x hc hpres => completedAt_run ops s x hc hpres⟩

/-- Closed instance of `completed_never_reverts`: a completed task stays
completed across an add followed by a reprioritize. -/
theorem completed_never_reverts_witness :
    CompletedAt (runOps (State.mk [Task.mk 1 "a" 2 true] Storage.absent)
      [Op.add "b" 1, Op.prioritize 1 3]) 1 :=
  completed_never_reverts.2 (State.mk [Task.mk 1 "a" 2 true] Storage.absent)
    [Op.add "b" 1, Op.prioritize 1 3] 1
    (by unfold CompletedAt; decide)
    (by
      intro k hk
      have hk2 : k ≤ 2 := by simpa using hk
      interval_cases k <;> (unfold PresentAt; decide))

/-- Completing never changes which ids are in the collection. -/
lemma applyOp_complete_ids (s : State) (i : Int) :
    ((applyOp s (.complete i)).tasks).map Task.id = s.tasks.map Task.id := by
  by_cases hnil : s.tasks = []
  · simp [applyOp, complete_task, hnil]
  · cases hmk : markFirstComplete s.tasks i with
    | none => simp [applyOp, complete_task, hnil, hmk]
    | some ts' =>
      have h := markFirstComplete_ids s.tasks i ts' hmk
      simp [applyOp, complete_task, hnil, hmk, h]

/-- Reprioritizing never changes which ids are in the collection. -/
lemma applyOp_prioritize_ids (s : State) (i p : Int) :
    ((applyOp s (.prioritize i p)).tasks).map Task.id = s.tasks.map Task.id := by
  by_cases hnil : s.tasks = []
  · simp [applyOp, prioritize_task, hnil]
  · cases hmk : setFirstPriority s.tasks i p with
    | none => simp [applyOp, prioritize_task, hnil, hmk]
    | some ts' =>
      have h := setFirstPriority_ids s.tasks i p ts' hmk
      simp [applyOp, prioritize_task, hnil, hmk, h]

/-- Along a delete-free run the assigned ids form a strictly increasing chain,
and every assigned id strictly dominates every id live at the start. -/
lemma assignedIds_chain (ops : List Op) : ∀ s : State,
    (∀ i : Int, Op.delete i ∉ ops) →
    List.Chain' (fun a b : Int => a < b) (assignedIds s ops) ∧
      ∀ x ∈ assignedIds s ops, ∀ t ∈ s.tasks, t.id < x := by
  induction ops with
  | nil =>
    intro s _
    exact ⟨List.chain'_nil, fun x hx => absurd hx (List.not_mem_nil x)⟩
  | cons op ops ih =>
    intro s hnd
    have hnd' : ∀ i : Int, Op.delete i ∉ ops := fun i hi =>
      hnd i (List.mem_cons_of_mem _ hi)
    cases op with
    | delete i => exact absurd (List.mem_cons_self _ _) (hnd i)
    | add d p =>
      by_cases hd : d = ""
      · subst hd
        have hstate : applyOp s (.add "" p) = s := by
          simp [applyOp, add_task]
        have hids : assignedIds s (.add "" p :: ops) = assignedIds s ops := by
          simp [assignedIds, hstate]
        rw [hids]
        exact ih s hnd'
      · have hstate : applyOp s (.add d p) =
            ⟨s.tasks ++ [⟨generate_new_id s.tasks, d, p, false⟩],
              save_tasks (s.tasks ++ [⟨generate_new_id s.tasks, d, p, false⟩])⟩ := by
          simp [applyOp, add_task, hd]
        have hids : assignedIds s (.add d p :: ops) =
            generate_new_id s.tasks :: assignedIds (applyOp s (.add d p)) ops := by
          simp [assignedIds, hd]
        obtain ⟨hchain, hgt⟩ := ih (applyOp s (.add d p)) hnd'
        rw [hids]
        constructor
        · rw [List.chain'_cons']
          refine ⟨?_, hchain⟩
          intro y hy
          have hymem := List.mem_of_mem_head? hy
          have hnt : (⟨generate_new_id s.tasks, d, p, false⟩ : Task) ∈
              (applyOp s (.add d p)).tasks := by
            rw [hstate]
            exact List.mem_append_right _ (List.mem_cons_self _ _)
          exact hgt y hymem _ hnt
        · intro x hx t ht
          rcases List.mem_cons.mp hx with rfl | hx'
          · exact id_lt_generate_new_id s.tasks t ht
          · refine hgt x hx' t ?_
            rw [hstate]
            exact List.mem_append_left _ ht
    | complete i =>
      have hids : assignedIds s (.complete i :: ops) =
          assignedIds (applyOp s (.complete i)) ops := by
        simp [assignedIds]
      obtain ⟨hchain, hgt⟩ := ih (applyOp s (.complete i)) hnd'
      rw [hids]
      refine ⟨hchain, ?_⟩
      intro x hx t ht
      have hidmem : t.id ∈ ((applyOp s (.complete i)).tasks).map Task.id := by
        rw [applyOp_complete_ids]
        exact List.mem_map_of_mem _ ht
      obtain ⟨t', ht', hid⟩ := List.mem_map.mp hidmem
      rw [← hid]
      exact hgt x hx t' ht'
    | prioritize i p =>
      have hids : assignedIds s (.prioritize i p :: ops) =
          assignedIds (applyOp s (.prioritize i p)) ops := by
        simp [assignedIds]
      obtain ⟨hchain, hgt⟩ := ih (applyOp s (.prioritize i p)) hnd'
      rw [hids]
      refine ⟨hchain, ?_⟩
      intro x hx t ht
      have hidmem : t.id ∈ ((applyOp s (.prioritize i p)).tasks).map Task.id := by
        rw [applyOp_prioritize_ids]
        exact List.mem_map_of_mem _ ht
      obtain ⟨t', ht', hid⟩ := List.mem_map.mp hidmem
      rw [← hid]
      exact hgt x hx t' ht'

/-- C1 fails as stated: starting from the empty collection, the run add,
delete 1, add assigns the id sequence [1, 1] — id 1 is assigned, deleted, and
assigned again (`generate_new_id` is max + 1, so deleting the task with the
maximal id frees its id for reuse), and the assigned ids are not strictly
increasing. -/
theorem id_reuse_counterexample :
    assignedIds emptyStart reuseRun = [1, 1] ∧
      ¬ List.Chain' (fun a b : Int => a < b) (assignedIds emptyStart reuseRun) := by
  have h : assignedIds emptyStart reuseRun = [1, 1] := by decide
  refine ⟨h, ?_⟩
  rw [h]
  intro hch
  rw [List.chain'_cons] at hch
  exact absurd hch.1 (by omega)

/-- C1 (amended): every id assigned to a newly added task is strictly greater
than every id in the collection at the moment of the add — so it never equals
a live id — and over any sequence of operations containing no delete the
assigned ids are strictly increasing; only deleting the task with the maximal
id re-opens its id for reuse. -/
theorem assigned_ids_fresh_and_increasing :
    (∀ (s : State) (d : String) (p : Int) (t : Task),
      (add_task s d p).2.2 = some t → ∀ u ∈ s.tasks, u.id < t.id) ∧
    (∀ (s : State) (ops : List Op), (∀ i : Int, Op.delete i ∉ ops) →
      List.Chain' (fun a b : Int => a < b) (assignedIds s ops)) := by
  constructor
  · intro s d p t hsome u hu
    by_cases hd : d = ""
    · rw [hd] at hsome
      simp [add_task] at hsome
    · have h1 : add_task s d p =
          (⟨s.tasks ++ [⟨generate_new_id s.tasks, d, p, false⟩],
            save_tasks (s.tasks ++ [⟨generate_new_id s.tasks, d, p, false⟩])⟩,
           .ok, some ⟨generate_new_id s.tasks, d, p, false⟩) := by
        simp [add_task, hd]
      rw [h1] at hsome
      injection hsome with h2
      rw [← h2]
      exact id_lt_generate_new_id s.tasks u hu
  · intro s ops h
    exact (assignedIds_chain ops s h).1

/-- Closed instance of `assigned_ids_fresh_and_increasing`: adding to a
collection holding id 3 creates id 4, above the live id, and the delete-free
run add, add from the empty state assigns a strictly increasing id chain. -/
theorem assigned_ids_fresh_witness :
    (∀ u ∈ (State.mk [Task.mk 3 "x" 2 false] Storage.absent).tasks,
      u.id < (Task.mk 4 "y" 1 false).id) ∧
    List.Chain' (fun a b : Int => a < b)
      (assignedIds emptyStart [Op.add "y" 1, Op.add "z" 2]) :=
  ⟨assigned_ids_fresh_and_increasing.1 (State.mk [Task.mk 3 "x" 2 false] Storage.absent)
      "y" 1 (Task.mk 4 "y" 1 false) (by decide),
   assigned_ids_fresh_and_increasing.2 emptyStart [Op.add "y" 1, Op.add "z" 2]
      (by intro i hi; simp at hi)⟩

end TaskManager
